import Mathlib

/-!
Verification of the DataClaw Plan-Approve-Execute-Learn core.

Strings are modelled as `List Char` (abbreviated `Str`); JavaScript string
operations are translated to structurally recursive functions on character
lists so that all definitions compute inside the kernel.
-/

set_option maxHeartbeats 1000000
set_option maxRecDepth 100000

abbrev Str := List Char

/-- Single-quote character (code point 39). -/
def sqc : Char := Char.ofNat 39

/-- Backslash character (code point 92). -/
def bslc : Char := Char.ofNat 92

/-- The code points of the JavaScript regular-expression class `\s`. -/
def isWsCodePoint (n : Nat) : Bool :=
  n = 32 || n = 9 || n = 10 || n = 11 || n = 12 ||
  n = 13 || n = 0xa0 || n = 0x1680 ||
  (0x2000 ≤ n && n ≤ 0x200a) ||
  n = 0x2028 || n = 0x2029 || n = 0x202f ||
  n = 0x205f || n = 0x3000 || n = 0xfeff

/-- The JavaScript regular-expression class `\s`. -/
def isWsChar (c : Char) : Bool := isWsCodePoint c.toNat

/-- The replacement `replace(/\s+/g, " ")` as a one-state scanner: `prevWs` records whether the
previous character was whitespace (a run of whitespace emits one space at its
first character). -/
def collapseWsAux : Bool → Str → Str
  | _, [] => []
  | prevWs, c :: t =>
    if isWsChar c then
      if prevWs then collapseWsAux true t else ' ' :: collapseWsAux true t
    else
      c :: collapseWsAux false t

/-- JavaScript `String.prototype.trim()`: drop whitespace from both ends. -/
def trimWs (s : Str) : Str :=
  ((s.dropWhile isWsChar).reverse.dropWhile isWsChar).reverse

/-- JavaScript `haystack.includes(needle)` on character lists. -/
def includesSub : Str → Str → Bool
  | s, sub =>
    sub.isPrefixOf s ||
      match s with
      | [] => false
      | _ :: t => includesSub t sub

/-- Whitespace tokenization (used to state what a standalone token is);
`acc` holds the current token reversed. -/
def wsTokensAux : Str → Str → List Str
  | acc, [] => if acc.isEmpty then [] else [acc.reverse]
  | acc, c :: t =>
    if isWsChar c then
      if acc.isEmpty then wsTokensAux [] t else acc.reverse :: wsTokensAux [] t
    else
      wsTokensAux (c :: acc) t

def wsTokens (s : Str) : List Str := wsTokensAux [] s

/-- From security.ts: the fixed list of write-intent SQL keywords. -/
def SQL_MUTATION_KEYWORDS : List Str :=
  ["insert".data, "update".data, "delete".data, "drop".data, "alter".data,
   "create".data, "truncate".data, "replace".data, "merge".data, "copy".data]

/-- From security.ts `isMutatingSql`: lower-case, collapse whitespace runs to
single spaces, trim, then flag if the result starts with a keyword or contains
a keyword surrounded by spaces. -/
def isMutatingSql (sql : Str) : Bool :=
  let normalized := trimWs (collapseWsAux false (sql.map Char.toLower))
  SQL_MUTATION_KEYWORDS.any fun keyword =>
    keyword.isPrefixOf normalized || includesSub normalized ([' '] ++ keyword ++ [' '])

/-- The JavaScript word-character class `\w` (for `\b` boundaries). -/
def isWordChar (c : Char) : Bool :=
  (97 ≤ c.toNat && c.toNat ≤ 122) || (65 ≤ c.toNat && c.toNat ≤ 90) ||
  (48 ≤ c.toNat && c.toNat ≤ 57) || c.toNat = 95

/-- The JavaScript `.` regex class: any character except a line terminator. -/
def isDotChar (c : Char) : Bool :=
  !(c.toNat = 10 || c.toNat = 13 || c.toNat = 0x2028 || c.toNat = 0x2029)

/-- The regex tail `.+?,\s*["']<target>` after `open(`: at least one
non-terminator character (`seen` records that), a comma, optional whitespace,
a quote, then the target mode character. -/
def afterOpenScan (target : Char) : Bool → Str → Bool
  | _, [] => false
  | seen, c :: t =>
    (c = ',' && seen &&
      (match t.dropWhile isWsChar with
       | q :: w :: _ => (q = '"' || q = sqc) && w = target
       | _ => false)) ||
    (isDotChar c && afterOpenScan target true t)

/-- The regex search `pattern.test(code)` for a pattern `\b<lit><tail>`: search every position
whose preceding character is not a word character (`prevWord` tracks it) for
the literal, then run `check` on the remainder. -/
def scanPattern (lit : Str) (check : Str → Bool) : Bool → Str → Bool
  | prevWord, [] => lit.isPrefixOf ([] : Str) && !prevWord && check []
  | prevWord, c :: t =>
    (lit.isPrefixOf (c :: t) && !prevWord && check ((c :: t).drop lit.length)) ||
    scanPattern lit check (isWordChar c) t

/-- From security.ts `isMutatingPython`: the seven `PYTHON_MUTATION_PATTERNS`,
tested in order (`open(...,"w`, `open(...,"a`, `os.remove(`, `os.rename(`,
`os.system(`, `subprocess.`, `requests.`). -/
def isMutatingPython (code : Str) : Bool :=
  scanPattern "open(".data (afterOpenScan 'w' false) false code ||
  scanPattern "open(".data (afterOpenScan 'a' false) false code ||
  scanPattern "os.remove(".data (fun _ => true) false code ||
  scanPattern "os.rename(".data (fun _ => true) false code ||
  scanPattern "os.system(".data (fun _ => true) false code ||
  scanPattern "subprocess.".data (fun _ => true) false code ||
  scanPattern "requests.".data (fun _ => true) false code

/-! ## Shared data model (packages/shared/src/types.ts) -/

inductive ExecutionLanguage
  | sql
  | python
deriving DecidableEq, Repr

inductive ExpectedShape
  | table
  | scalar
  | text
deriving DecidableEq, Repr

structure PlannerOutput where
  intent : Str
  language : ExecutionLanguage
  command : Str
  requiresApproval : Bool
  expectedShape : ExpectedShape
  explanationSeed : Str
deriving DecidableEq, Repr

structure AskResult where
  plan : PlannerOutput
  command : Str
  result : Str
  explanation : Str
  sourceTables : List Str
  learningsUsed : List Str
  fallbackUsed : Bool
deriving DecidableEq, Repr

structure ToolExecutionAudit where
  timestamp : Str
  datasetId : Str
  command : Str
  language : ExecutionLanguage
  mutating : Bool
  approved : Bool
  yolo : Bool
  success : Bool
  error : Option Str
deriving DecidableEq, Repr

/-- The argument shape of `ExecutorContext.saveLearning` (also the
`LearningInput` of the memory service). -/
structure LearningInput where
  datasetId : Str
  symptom : Str
  rootCause : Str
  fix : Str
  command : Str
  language : ExecutionLanguage
deriving DecidableEq, Repr

/-! ## Executor (packages/agent-core/src/executor.ts)

Collaborators are modelled as pure functions; a collaborator that can throw
returns `Except Str α` whose error is the thrown message.  `new Date()
.toISOString()` is modelled by the context field `now` (no claim compares
timestamps).  `appendAudit` is modelled as a trace event (the audit sink).
Every collaborator invocation is recorded, in order, as an `ExecEvent`. -/

structure ExecutorContext where
  datasetId : Str
  yolo : Bool
  plan : PlannerOutput
  sourceTables : List Str
  memoryHintsUsed : List Str
  approveCommand : Str → ExecutionLanguage → Bool
  runSql : Str → Except Str Str
  runPython : Str → Except Str Str
  saveLearning : LearningInput → Except Str Unit
  now : Str

deriving instance DecidableEq for Except

inductive ExecEvent
  | approval (command : Str) (language : ExecutionLanguage) (answer : Bool)
  | sqlRun (command : Str) (outcome : Except Str Str)
  | pythonRun (code : Str) (outcome : Except Str Str)
  | learning (input : LearningInput) (outcome : Except Str Unit)
  | audit (entry : ToolExecutionAudit)
deriving DecidableEq, Repr

/-- The replacement `replace(/'''/g, "\\'\\'\\'")`: left-to-right, non-overlapping. -/
def escapeTripleQuote : Str → Str
  | c1 :: c2 :: c3 :: t =>
    if c1 = sqc && c2 = sqc && c3 = sqc then
      bslc :: sqc :: bslc :: sqc :: bslc :: sqc :: escapeTripleQuote t
    else
      c1 :: escapeTripleQuote (c2 :: c3 :: t)
  | c :: t => c :: escapeTripleQuote t
  | [] => []

/-- The replacement `replace(/'/g, "\\'")`. -/
def escapeSingleQuote : Str → Str
  | [] => []
  | c :: t =>
    if c = sqc then bslc :: sqc :: escapeSingleQuote t
    else c :: escapeSingleQuote t

/-- From executor.ts `generateFallbackPython`. -/
def generateFallbackPython (sql sqlError : Str) : Str :=
  List.intercalate ['\n']
    ["import duckdb".data,
     "con = duckdb.connect(database=DB_PATH, read_only=False)".data,
     "query = ".data ++ [sqc, sqc, sqc] ++ escapeTripleQuote sql ++ [sqc, sqc, sqc],
     "try:".data,
     "    result = con.execute(query).fetchdf()".data,
     "    print(result.head(50).to_string(index=False))".data,
     "except Exception as err:".data,
     "    raise RuntimeError(".data ++ [sqc] ++ "Original SQL failed: ".data ++
       escapeSingleQuote sqlError ++ [sqc] ++ ") from err".data]

/-- The classification `const mutating = plan.language === "sql" ? isMutatingSql(...) :
isMutatingPython(...)`. -/
def classifyMutating (plan : PlannerOutput) : Bool :=
  match plan.language with
  | .sql => isMutatingSql plan.command
  | .python => isMutatingPython plan.command

/-- The primary execution (`plan.language === "sql" ? runSql : runPython`). -/
def runCommand (ctx : ExecutorContext) : Except Str Str :=
  match ctx.plan.language with
  | .sql => ctx.runSql ctx.plan.command
  | .python => ctx.runPython ctx.plan.command

def runEventOf (ctx : ExecutorContext) (out : Except Str Str) : ExecEvent :=
  match ctx.plan.language with
  | .sql => .sqlRun ctx.plan.command out
  | .python => .pythonRun ctx.plan.command out

def mkAudit (ctx : ExecutorContext) (mutating approved yolo success : Bool)
    (error : Option Str) : ToolExecutionAudit :=
  { timestamp := ctx.now, datasetId := ctx.datasetId,
    command := ctx.plan.command, language := ctx.plan.language,
    mutating := mutating, approved := approved, yolo := yolo,
    success := success, error := error }

def rejectionError : Str := "Command was rejected by user approval gate.".data

def cancelMessage : Str :=
  "Execution canceled: command was rejected by approval gate.".data

/-- The object literal passed to `saveLearning` on the fallback path
(executor.ts lines 93-100). -/
def fallbackLearning (ctx : ExecutorContext) (message : Str) : LearningInput :=
  { datasetId := ctx.datasetId,
    symptom := "SQL failed: ".data ++ message,
    rootCause :=
      "Original SQL could not execute on current schema or engine constraints.".data,
    fix := "Used Python fallback to answer the query.".data,
    command := generateFallbackPython ctx.plan.command message,
    language := .python }

/-- The body of the `try`-block of `Executor.execute` together with both
`catch` handlers (executor.ts lines 60-151).  `ev0` holds the events of the
gate phase.  Note that `saveLearning` is awaited inside the inner `try`, so a
learning-store error is caught by the fallback `catch`. -/
def executeAttempt (ctx : ExecutorContext) (mutating approved : Bool)
    (ev0 : List ExecEvent) : Except Str AskResult × List ExecEvent :=
  match runCommand ctx with
  | .ok result =>
    (.ok { plan := ctx.plan, command := ctx.plan.command, result := result,
           explanation := ctx.plan.explanationSeed,
           sourceTables := ctx.sourceTables,
           learningsUsed := ctx.memoryHintsUsed, fallbackUsed := false },
     ev0 ++ [runEventOf ctx (.ok result),
             .audit (mkAudit ctx mutating approved ctx.yolo true none)])
  | .error message =>
    match ctx.plan.language with
    | .sql =>
      let fallbackCode := generateFallbackPython ctx.plan.command message
      match ctx.runPython fallbackCode with
      | .ok fallbackResult =>
        let li : LearningInput := fallbackLearning ctx message
        match ctx.saveLearning li with
        | .ok _ =>
          (.ok { plan := ctx.plan, command := ctx.plan.command,
                 result := fallbackResult,
                 explanation := ctx.plan.explanationSeed ++
                   " SQL failed, so Python fallback was used.".data,
                 sourceTables := ctx.sourceTables,
                 learningsUsed := ctx.memoryHintsUsed, fallbackUsed := true },
           ev0 ++ [runEventOf ctx (.error message),
                   .pythonRun fallbackCode (.ok fallbackResult),
                   .learning li (.ok ()),
                   .audit (mkAudit ctx mutating approved ctx.yolo true none)])
        | .error fallbackMessage =>
          (.error ("SQL failed: ".data ++ message ++
             ". Python fallback also failed: ".data ++ fallbackMessage),
           ev0 ++ [runEventOf ctx (.error message),
                   .pythonRun fallbackCode (.ok fallbackResult),
                   .learning li (.error fallbackMessage),
                   .audit (mkAudit ctx mutating approved ctx.yolo false
                     (some ("SQL failed (".data ++ message ++
                       "); fallback failed (".data ++ fallbackMessage ++ ")".data)))])
      | .error fallbackMessage =>
        (.error ("SQL failed: ".data ++ message ++
           ". Python fallback also failed: ".data ++ fallbackMessage),
         ev0 ++ [runEventOf ctx (.error message),
                 .pythonRun fallbackCode (.error fallbackMessage),
                 .audit (mkAudit ctx mutating approved ctx.yolo false
                   (some ("SQL failed (".data ++ message ++
                     "); fallback failed (".data ++ fallbackMessage ++ ")".data)))])
    | .python =>
      (.error message,
       ev0 ++ [runEventOf ctx (.error message),
               .audit (mkAudit ctx mutating approved ctx.yolo false (some message))])

/-- Method `Executor.execute` (executor.ts lines 25-152).  In the gate phase
`approved` starts as `!mutating`, is replaced by the gate's answer when
`mutating && !yolo`, and forced to `true` when `mutating && yolo`. -/
def execute (ctx : ExecutorContext) : Except Str AskResult × List ExecEvent :=
  let mutating := classifyMutating ctx.plan
  if mutating && !ctx.yolo then
    let answer := ctx.approveCommand ctx.plan.command ctx.plan.language
    if answer then
      executeAttempt ctx mutating answer
        [.approval ctx.plan.command ctx.plan.language answer]
    else
      (.ok { plan := ctx.plan, command := ctx.plan.command,
             result := cancelMessage,
             explanation := "A mutating command requires explicit approval.".data,
             sourceTables := ctx.sourceTables,
             learningsUsed := ctx.memoryHintsUsed, fallbackUsed := false },
       [.approval ctx.plan.command ctx.plan.language answer,
        .audit { timestamp := ctx.now, datasetId := ctx.datasetId,
                 command := ctx.plan.command, language := ctx.plan.language,
                 mutating := mutating, approved := false, yolo := false,
                 success := false, error := some rejectionError }])
  else
    executeAttempt ctx mutating (!mutating || (mutating && ctx.yolo)) []

/-! Trace projections. -/

def auditEntries (evs : List ExecEvent) : List ToolExecutionAudit :=
  evs.filterMap fun e =>
    match e with
    | .audit a => some a
    | _ => none

def approvalAnswers (evs : List ExecEvent) : List Bool :=
  evs.filterMap fun e =>
    match e with
    | .approval _ _ ans => some ans
    | _ => none

/-- Whether some approval-gate invocation in the trace was declined. -/
def approvalDeclined (evs : List ExecEvent) : Bool :=
  (approvalAnswers evs).any (fun ans => !ans)

/-- The outcomes of the execution attempts (runSql / runPython calls), in
order. -/
def runOutcomes (evs : List ExecEvent) : List (Except Str Str) :=
  evs.filterMap fun e =>
    match e with
    | .sqlRun _ o => some o
    | .pythonRun _ o => some o
    | _ => none

/-- The commands of the execution attempts that succeeded. -/
def successfulRunCodes (evs : List ExecEvent) : List Str :=
  evs.filterMap fun e =>
    match e with
    | .sqlRun c (.ok _) => some c
    | .pythonRun c (.ok _) => some c
    | _ => none

def learningEntries (evs : List ExecEvent) : List (LearningInput × Except Str Unit) :=
  evs.filterMap fun e =>
    match e with
    | .learning li o => some (li, o)
    | _ => none

/-! ## Planner (packages/agent-core/src/planner.ts) -/

inductive FileType
  | csv
  | parquet
  | sqlite
  | json
  | other
deriving DecidableEq, Repr

structure DatasetFile where
  path : Str
  type : FileType
  sizeBytes : Nat
deriving DecidableEq, Repr

structure DatasetColumn where
  name : Str
  type : Str
deriving DecidableEq, Repr

structure DatasetTable where
  name : Str
  originPath : Str
  columns : List DatasetColumn
deriving DecidableEq, Repr

structure DatasetManifest where
  id : Str
  source : Str
  createdAt : Str
  files : List DatasetFile
  tables : List DatasetTable
deriving DecidableEq, Repr

structure PlannerContext where
  datasetId : Str
  prompt : Str
  manifest : DatasetManifest
  memoryHints : List Str

/-- The `OpenRouterClient` collaborator, modelled abstractly: `chatJson` maps
the request payload (built from the planner context) to either a thrown error
or the parsed plan.  The JSON serialization of the payload is out of scope. -/
structure OpenRouterClientM where
  isConfigured : Bool
  chatJson : PlannerContext → Except Str PlannerOutput

/-- From planner.ts `heuristicPlan`: the keyword list `likelyPython`. -/
def LIKELY_PYTHON : List Str :=
  ["plot".data, "chart".data, "visual".data, "complex".data, "clean".data]

/-- From planner.ts `heuristicPlan`. -/
def heuristicPlan (prompt : Str) : PlannerOutput :=
  let lowered := prompt.map Char.toLower
  if LIKELY_PYTHON.any (fun token => includesSub lowered token) then
    { intent := "Use Python fallback for complex analytics.".data,
      language := .python,
      command := "# Write pandas-compatible code that reads from DuckDB and returns a concise textual answer".data,
      requiresApproval := false, expectedShape := .text,
      explanationSeed := "Python fallback selected because the request looks analytical.".data }
  else
    { intent := "Run SQL query on canonical DuckDB dataset.".data,
      language := .sql,
      command := "SELECT * FROM main_table LIMIT 50;".data,
      requiresApproval := false, expectedShape := .table,
      explanationSeed := "Default SQL-first planning path.".data }

/-- From planner.ts `Planner.createPlan`: heuristic plan when the client is
unconfigured, otherwise the completion call followed by the orchestrator-side
`requiresApproval` repair. -/
def createPlan (client : OpenRouterClientM) (ctx : PlannerContext) :
    Except Str PlannerOutput :=
  if !client.isConfigured then .ok (heuristicPlan ctx.prompt)
  else
    match client.chatJson ctx with
    | .error e => .error e
    | .ok plan =>
      if plan.language = ExecutionLanguage.sql ∧ plan.requiresApproval = false ∧
          isMutatingSql plan.command then
        .ok { plan with requiresApproval := true }
      else .ok plan

/-! ## Markdown memory service (memory-service.ts, fs-utils.ts, paths.ts)

The filesystem is modelled as an association list from paths (segment lists)
to file contents; `join(a, b)` is appending one segment.  Directory creation
(`ensureDirectory`, `ensureProjectDirectories`) is a no-op in this model since
directories are implicit in the stored paths; `listFilesRecursively` on a
missing directory throws in the source but every call site swallows that
error, which coincides with returning the empty list here. -/

abbrev FsPath := List Str

abbrev Fs := List (FsPath × Str)

def readTextFs : Fs → FsPath → Option Str
  | [], _ => none
  | (q, t) :: rest, p => if q = p then some t else readTextFs rest p

/-- Node `appendFileSync`: append to the file, creating it when missing. -/
def appendTextFs : Fs → FsPath → Str → Fs
  | [], p, content => [(p, content)]
  | (q, t) :: rest, p, content =>
    if q = p then (q, t ++ content) :: rest
    else (q, t) :: appendTextFs rest p content

/-- The recursive directory walk: every stored file strictly below `root`
(the enumeration order of the walk is irrelevant to the service). -/
def listFilesRecursivelyFs (fs : Fs) (root : FsPath) : List FsPath :=
  (fs.map Prod.fst).filter fun p => root.isPrefixOf p && decide (p ≠ root)

structure ProjectPaths where
  projectRoot : FsPath
  stateRoot : FsPath
  datasetsRoot : FsPath
  sessionStatePath : FsPath
  globalMemoryRoot : FsPath
  globalCuratedMemoryPath : FsPath
  auditLogPath : FsPath

/-- From paths.ts `getProjectPaths` (with `resolve(cwd) = cwd`: `cwd` is
already an absolute path). -/
def getProjectPaths (cwd : FsPath) : ProjectPaths :=
  let projectRoot := cwd
  let stateRoot := projectRoot ++ [".dataclaw".data]
  { projectRoot := projectRoot, stateRoot := stateRoot,
    datasetsRoot := stateRoot ++ ["datasets".data],
    sessionStatePath := stateRoot ++ ["session.json".data],
    globalMemoryRoot := stateRoot ++ ["memory".data, "global".data],
    globalCuratedMemoryPath := projectRoot ++ ["MEMORY.md".data],
    auditLogPath := stateRoot ++ ["logs".data, "audit.jsonl".data] }

/-- From paths.ts `getDatasetRoot` (the dataset id is one path segment). -/
def getDatasetRoot (cwd : FsPath) (datasetId : Str) : FsPath :=
  (getProjectPaths cwd).datasetsRoot ++ [datasetId]

/-- JavaScript `[...new Set(files)]`: keep the first occurrence of each path. -/
def dedupFirstAux : List FsPath → List FsPath → List FsPath
  | _, [] => []
  | seen, p :: rest =>
    if p ∈ seen then dedupFirstAux seen rest
    else p :: dedupFirstAux (p :: seen) rest

/-- From memory-service.ts `memoryFiles`: global curated file, global daily
files, and (when dataset-scoped) the dataset curated file and dataset daily
files; dedupe, then keep only readable paths. -/
def memoryFiles (cwd : FsPath) (fs : Fs) (datasetId : Option Str) : List FsPath :=
  let pp := getProjectPaths cwd
  let base := pp.globalCuratedMemoryPath ::
    listFilesRecursivelyFs fs pp.globalMemoryRoot
  let files :=
    match datasetId with
    | some d =>
      base ++ [getDatasetRoot cwd d ++ ["MEMORY.md".data]] ++
        listFilesRecursivelyFs fs (getDatasetRoot cwd d ++ ["memory".data])
    | none =>
      base ++ (listFilesRecursivelyFs fs pp.datasetsRoot).filter
        (fun p => ".md".data.isSuffixOf (p.getLastD []))
  (dedupFirstAux [] files).filter fun p => (readTextFs fs p).isSome

/-- From memory-service.ts `readAllMemoryText`. -/
def readAllMemoryText (cwd : FsPath) (fs : Fs) (datasetId : Str) : Str :=
  List.intercalate ['\n']
    ((memoryFiles cwd fs (some datasetId)).map fun p => (readTextFs fs p).getD [])

def langText : ExecutionLanguage → Str
  | .sql => "sql".data
  | .python => "python".data

/-- The fingerprint pre-image `${datasetId}:${symptom}:${fix}`. -/
def fingerprintKey (input : LearningInput) : Str :=
  input.datasetId ++ [':'] ++ input.symptom ++ [':'] ++ input.fix

/-- From memory-service.ts `saveLearning`: the formatted learning block
(`createdAt` models `new Date().toISOString()`). -/
def learningBlock (input : LearningInput) (fingerprint createdAt : Str) : Str :=
  List.intercalate ['\n']
    ["## Learning ".data ++ fingerprint.take 12,
     "- dataset_id: ".data ++ input.datasetId,
     "- symptom: ".data ++ input.symptom,
     "- root_cause: ".data ++ input.rootCause,
     "- fix: ".data ++ input.fix,
     "- language: ".data ++ langText input.language,
     "- command: ".data ++ input.command.map (fun c => if c = '\n' then ' ' else c),
     "- confidence: 0.75".data,
     "- tags: auto-learning,execution-retry".data,
     "- created_at: ".data ++ createdAt,
     "- fingerprint: ".data ++ fingerprint,
     []]

/-- The dataset-scoped daily file `<datasetRoot>/memory/<today>.md`. -/
def dailyMemoryPath (cwd : FsPath) (datasetId today : Str) : FsPath :=
  getDatasetRoot cwd datasetId ++ ["memory".data, today ++ ".md".data]

/-- The global daily file `<globalMemoryRoot>/<today>.md`. -/
def globalDailyMemoryPath (cwd : FsPath) (today : Str) : FsPath :=
  (getProjectPaths cwd).globalMemoryRoot ++ [today ++ ".md".data]

/-- From memory-service.ts `MarkdownMemoryService.saveLearning`: compute the
sha256 fingerprint of dataset+symptom+fix, no-op if it already occurs in any
readable dataset-scoped memory text, else append the block to the dataset
daily file and the global daily file.  `sha256` is the (opaque) hash
function; `today` models `today()` and `createdAt` the creation timestamp. -/
def saveLearning (cwd : FsPath) (sha256 : Str → Str) (today createdAt : Str)
    (fs : Fs) (input : LearningInput) : Fs :=
  let fingerprint := sha256 (fingerprintKey input)
  let existing := readAllMemoryText cwd fs input.datasetId
  if includesSub existing fingerprint then fs
  else
    let block := learningBlock input fingerprint createdAt
    let fs1 := appendTextFs fs (dailyMemoryPath cwd input.datasetId today) block
    appendTextFs fs1 (globalDailyMemoryPath cwd today) block

/-! ## Vocabulary for the classifier claims

A command "contains `kw` as a standalone token" is stated through whitespace
tokenization (`wsTokens`) or, for universally quantified statements, through
an explicit assembly of the command from tokens and whitespace separators. -/

/-- A string made of whitespace only. -/
def WsStr (w : Str) : Prop := ∀ c ∈ w, isWsChar c = true

/-- A nonempty string without whitespace: one token. -/
def TokenStr (t : Str) : Prop := t ≠ [] ∧ ∀ c ∈ t, isWsChar c = false

instance (w : Str) : Decidable (WsStr w) := by unfold WsStr; infer_instance

instance (t : Str) : Decidable (TokenStr t) := by unfold TokenStr; infer_instance

/-- Concatenate token/trailing-whitespace pairs. -/
def sepJoin : List (Str × Str) → Str
  | [] => []
  | (t, w) :: rest => t ++ w ++ sepJoin rest

/-- The pairs form a well-formed command decomposition: every first component
is a token, every second component is whitespace, and tokens are separated
(every non-final whitespace run is nonempty). -/
def PartsOk : List (Str × Str) → Prop
  | [] => True
  | [(t, w)] => TokenStr t ∧ WsStr w
  | (t, w) :: rest => TokenStr t ∧ WsStr w ∧ w ≠ [] ∧ PartsOk rest

instance : (parts : List (Str × Str)) → Decidable (PartsOk parts)
  | [] => by unfold PartsOk; infer_instance
  | [(t, w)] => by unfold PartsOk; infer_instance
  | (t, w) :: p :: rest =>
    have : Decidable (PartsOk (p :: rest)) := instDecidablePartsOk (p :: rest)
    by unfold PartsOk; infer_instance

/-- What whitespace-collapsing produces on a decomposition: tokens joined by
single spaces, plus one trailing space when the final separator is nonempty. -/
def spineJoin : List (Str × Str) → Str
  | [] => []
  | [(t, w)] => t ++ (if w.isEmpty then [] else [' '])
  | (t, _) :: rest => t ++ ' ' :: spineJoin rest

/-- Tokens joined by single spaces. -/
def joinSp : List Str → Str
  | [] => []
  | [t] => t
  | t :: rest => t ++ ' ' :: joinSp rest

/-- Lower-casing each component of a decomposition. -/
def lowerParts (parts : List (Str × Str)) : List (Str × Str) :=
  parts.map fun p => (p.1.map Char.toLower, p.2.map Char.toLower)


/-- The same context with only `plan.requiresApproval` replaced. -/
def setRequiresApproval (b : Bool) (ctx : ExecutorContext) : ExecutorContext :=
  { ctx with plan := { ctx.plan with requiresApproval := b } }

/-! ## Concrete inputs used by witnesses and counterexamples -/

def nameErrorMsg : Str :=
  "NameError: name ".data ++ [sqc] ++ "tables".data ++ [sqc] ++
    " is not defined".data

/-- A fallback-language (python) plan whose execution fails with the
missing-table-context error from the executor's own test file. -/
def ctxC1 : ExecutorContext :=
  { datasetId := "dataset_a".data, yolo := false,
    plan := { intent := "python test intent".data, language := .python,
              command := "print(tables[0])".data, requiresApproval := false,
              expectedShape := .text,
              explanationSeed := "Python execution path.".data },
    sourceTables := ["table_a".data], memoryHintsUsed := [],
    approveCommand := fun _ _ => true,
    runSql := fun _ => .ok "ok".data,
    runPython := fun _ => .error nameErrorMsg,
    saveLearning := fun _ => .ok (),
    now := [] }

/-- Primary SQL fails, the generated fallback succeeds, but the learning
store throws on `saveLearning`. -/
def ctxC2 : ExecutorContext :=
  { datasetId := "dataset_a".data, yolo := false,
    plan := { intent := "test intent".data, language := .sql,
              command := "SELECT count(8) FROM missing_table".data,
              requiresApproval := false, expectedShape := .table,
              explanationSeed := "Base explanation".data },
    sourceTables := ["table_a".data], memoryHintsUsed := [],
    approveCommand := fun _ _ => true,
    runSql := fun _ => .error "Connection Error".data,
    runPython := fun _ => .ok "fallback rows".data,
    saveLearning := fun _ => .error "memory store write failed".data,
    now := [] }

/-- Primary SQL fails, the generated fallback succeeds, learning persists. -/
def ctxC8 : ExecutorContext :=
  { datasetId := "dataset_a".data, yolo := false,
    plan := { intent := "test intent".data, language := .sql,
              command := "SELECT count(8) FROM missing_table".data,
              requiresApproval := false, expectedShape := .table,
              explanationSeed := "Base explanation".data },
    sourceTables := ["table_a".data], memoryHintsUsed := [],
    approveCommand := fun _ _ => true,
    runSql := fun _ => .error "Connection Error".data,
    runPython := fun _ => .ok "fallback rows".data,
    saveLearning := fun _ => .ok (),
    now := [] }

/-- The result `execute ctxC8` returns. -/
def resC8 : AskResult :=
  { plan := ctxC8.plan, command := "SELECT count(8) FROM missing_table".data,
    result := "fallback rows".data,
    explanation := "Base explanation".data ++
      " SQL failed, so Python fallback was used.".data,
    sourceTables := ["table_a".data], learningsUsed := [],
    fallbackUsed := true }

/-- A mutating SQL plan with no override and a declining approval gate. -/
def ctxW4 : ExecutorContext :=
  { datasetId := "dataset_a".data, yolo := false,
    plan := { intent := "t".data, language := .sql,
              command := "DROP TABLE items".data, requiresApproval := true,
              expectedShape := .table, explanationSeed := "e".data },
    sourceTables := ["table_a".data], memoryHintsUsed := [],
    approveCommand := fun _ _ => false,
    runSql := fun _ => .ok "ok".data,
    runPython := fun _ => .ok "ok".data,
    saveLearning := fun _ => .ok (),
    now := [] }

def ctxW5 : ExecutorContext := ctxC8

def resW5 : AskResult := resC8

def partsW6 : List (Str × Str) :=
  [("explain".data, [' ', ' ']), ("Drop".data, [' ']),
   ("table".data, [' ']), ("t".data, [])]

def shaW7 : Str → Str := fun _ => "5a1b2c3d4e5f60718293a4b5".data

def inpW7 : LearningInput :=
  { datasetId := "dataset_a".data, symptom := "Type mismatch".data,
    rootCause := "Column is TEXT".data, fix := "Cast to INT".data,
    command := "SELECT CAST(x AS INT) FROM t".data, language := .sql }

def clientW9 : OpenRouterClientM :=
  { isConfigured := false, chatJson := fun _ => .error "unused".data }

def pctxW9 : PlannerContext :=
  { datasetId := "ds".data, prompt := "Plot sales by month".data,
    manifest := { id := "ds".data, source := "kaggle".data,
                  createdAt := "now".data, files := [], tables := [] },
    memoryHints := [] }

/-! ## Theorems -/

example : isMutatingSql "UPDATE items SET name = 1".data = true := by decide
example : isMutatingSql "  delete from items where id = 1".data = true := by decide
example : isMutatingSql "SELECT * FROM items".data = false := by decide
example : isMutatingSql "select 1".data = false := by decide
example : isMutatingSql "select * from copy".data = false := by decide
example : "ab".data = ['a', 'b'] := by decide
example :
    isMutatingPython ("open(".data ++ [sqc] ++ "x.txt".data ++ [sqc, ','] ++
      [' ', sqc, 'w', sqc, ')'] ) = true := by decide
example : isMutatingPython "subprocess.run".data = true := by decide
example : isMutatingPython "xsubprocess.run".data = false := by decide
example : isMutatingPython "print(tables[0])".data = false := by decide

theorem executeAttempt_spec (ctx : ExecutorContext) (m ap : Bool)
    (ev0 : List ExecEvent) :
    ∃ tail a,
      (executeAttempt ctx m ap ev0).2 = ev0 ++ tail ∧
      auditEntries tail = [a] ∧
      approvalAnswers tail = [] ∧
      (a.success = true ↔ ∃ r, (executeAttempt ctx m ap ev0).1 = .ok r) ∧
      (∀ r, (executeAttempt ctx m ap ev0).1 = .ok r →
        r.plan = ctx.plan ∧ r.command = ctx.plan.command ∧
        (r.fallbackUsed = true ↔
          ∃ msg rest, runOutcomes tail = .error msg :: rest ∧
            ∃ v, (Except.ok v : Except Str Str) ∈ rest)) := by
  cases hrc : runCommand ctx with
  | ok result =>
    refine ⟨[runEventOf ctx (.ok result),
             .audit (mkAudit ctx m ap ctx.yolo true none)],
            mkAudit ctx m ap ctx.yolo true none, ?_, ?_, ?_, ?_, ?_⟩ <;>
      cases hL : ctx.plan.language <;>
      simp_all [executeAttempt, runEventOf, auditEntries, approvalAnswers,
        runOutcomes, mkAudit]
  | error message =>
    cases hL : ctx.plan.language with
    | sql =>
      cases hfb : ctx.runPython (generateFallbackPython ctx.plan.command message) with
      | ok fallbackResult =>
        cases hsl : ctx.saveLearning (fallbackLearning ctx message) with
        | ok u =>
          refine ⟨[runEventOf ctx (.error message),
                   .pythonRun (generateFallbackPython ctx.plan.command message)
                     (.ok fallbackResult),
                   .learning (fallbackLearning ctx message) (.ok u),
                   .audit (mkAudit ctx m ap ctx.yolo true none)],
                  mkAudit ctx m ap ctx.yolo true none, ?_, ?_, ?_, ?_, ?_⟩ <;>
            simp_all [executeAttempt, runEventOf, auditEntries, approvalAnswers,
              runOutcomes, mkAudit]
          exact ⟨message, [Except.ok fallbackResult], ⟨rfl, rfl⟩,
            fallbackResult, by simp⟩
        | error fallbackMessage =>
          refine ⟨[runEventOf ctx (.error message),
                   .pythonRun (generateFallbackPython ctx.plan.command message)
                     (.ok fallbackResult),
                   .learning (fallbackLearning ctx message) (.error fallbackMessage),
                   .audit (mkAudit ctx m ap ctx.yolo false
                     (some ("SQL failed (".data ++ message ++
                       "); fallback failed (".data ++ fallbackMessage ++ ")".data)))],
                  mkAudit ctx m ap ctx.yolo false
                    (some ("SQL failed (".data ++ message ++
                      "); fallback failed (".data ++ fallbackMessage ++ ")".data)),
                  ?_, ?_, ?_, ?_, ?_⟩ <;>
            simp_all [executeAttempt, runEventOf, auditEntries, approvalAnswers,
              runOutcomes, mkAudit]
      | error fallbackMessage =>
        refine ⟨[runEventOf ctx (.error message),
                 .pythonRun (generateFallbackPython ctx.plan.command message)
                   (.error fallbackMessage),
                 .audit (mkAudit ctx m ap ctx.yolo false
                   (some ("SQL failed (".data ++ message ++
                     "); fallback failed (".data ++ fallbackMessage ++ ")".data)))],
                mkAudit ctx m ap ctx.yolo false
                  (some ("SQL failed (".data ++ message ++
                    "); fallback failed (".data ++ fallbackMessage ++ ")".data)),
                ?_, ?_, ?_, ?_, ?_⟩ <;>
          simp_all [executeAttempt, runEventOf, auditEntries, approvalAnswers,
            runOutcomes, mkAudit]
    | python =>
      refine ⟨[runEventOf ctx (.error message),
               .audit (mkAudit ctx m ap ctx.yolo false (some message))],
              mkAudit ctx m ap ctx.yolo false (some message), ?_, ?_, ?_, ?_, ?_⟩ <;>
        simp_all [executeAttempt, runEventOf, auditEntries, approvalAnswers,
          runOutcomes, mkAudit]

/-- C3: every `execute()` call appends exactly one AuditRecord, whose success
flag reflects the final outcome of the call. -/
theorem executor_single_final_audit (ctx : ExecutorContext) :
    ∃ a, auditEntries (execute ctx).2 = [a] ∧
      (a.success = true ↔
        ((∃ r, (execute ctx).1 = Except.ok r) ∧
          approvalDeclined (execute ctx).2 = false)) := by
  unfold execute
  by_cases hg : (classifyMutating ctx.plan && !ctx.yolo) = true
  · rw [if_pos hg]
    by_cases ha : ctx.approveCommand ctx.plan.command ctx.plan.language = true
    · rw [if_pos ha]
      obtain ⟨tail, a, h2, haud, happ, hsucc, -⟩ :=
        executeAttempt_spec ctx (classifyMutating ctx.plan)
          (ctx.approveCommand ctx.plan.command ctx.plan.language)
          [.approval ctx.plan.command ctx.plan.language
            (ctx.approveCommand ctx.plan.command ctx.plan.language)]
      refine ⟨a, ?_, ?_⟩ <;>
        simp_all [auditEntries, approvalDeclined, approvalAnswers,
          List.filterMap_append]
    · rw [if_neg ha]
      refine ⟨{ timestamp := ctx.now, datasetId := ctx.datasetId,
                command := ctx.plan.command, language := ctx.plan.language,
                mutating := classifyMutating ctx.plan, approved := false,
                yolo := false, success := false,
                error := some rejectionError }, ?_, ?_⟩ <;>
        simp_all [auditEntries, approvalDeclined, approvalAnswers]
  · rw [if_neg hg]
    obtain ⟨tail, a, h2, haud, happ, hsucc, -⟩ :=
      executeAttempt_spec ctx (classifyMutating ctx.plan)
        (!classifyMutating ctx.plan || (classifyMutating ctx.plan && ctx.yolo)) []
    refine ⟨a, ?_, ?_⟩ <;>
      simp_all [auditEntries, approvalDeclined, approvalAnswers,
        List.filterMap_append]

/-- C4: a mutating plan with no override invokes the approval gate before any
execution attempt; a declined approval yields zero execution attempts, no
learning, one failure AuditRecord, and a cancellation result. -/
theorem executor_approval_gate (ctx : ExecutorContext)
    (hmut : classifyMutating ctx.plan = true) (hyolo : ctx.yolo = false) :
    ∃ ans rest,
      (execute ctx).2 =
        ExecEvent.approval ctx.plan.command ctx.plan.language ans :: rest ∧
      (ans = false →
        runOutcomes (execute ctx).2 = [] ∧
        learningEntries (execute ctx).2 = [] ∧
        (∃ a, auditEntries (execute ctx).2 = [a] ∧ a.success = false) ∧
        (∃ r, (execute ctx).1 = Except.ok r ∧ r.result = cancelMessage ∧
          r.fallbackUsed = false)) := by
  have hg : (classifyMutating ctx.plan && !ctx.yolo) = true := by
    simp [hmut, hyolo]
  unfold execute
  rw [if_pos hg]
  by_cases ha : ctx.approveCommand ctx.plan.command ctx.plan.language = true
  · rw [if_pos ha]
    obtain ⟨tail, a, h2, -, -, -, -⟩ :=
      executeAttempt_spec ctx (classifyMutating ctx.plan)
        (ctx.approveCommand ctx.plan.command ctx.plan.language)
        [.approval ctx.plan.command ctx.plan.language
          (ctx.approveCommand ctx.plan.command ctx.plan.language)]
    exact ⟨ctx.approveCommand ctx.plan.command ctx.plan.language, tail,
      by simpa using h2, by simp [ha]⟩
  · rw [if_neg ha]
    refine ⟨ctx.approveCommand ctx.plan.command ctx.plan.language, _, rfl, ?_⟩
    intro _
    exact ⟨by simp [runOutcomes], by simp [learningEntries],
      ⟨{ timestamp := ctx.now, datasetId := ctx.datasetId,
         command := ctx.plan.command, language := ctx.plan.language,
         mutating := classifyMutating ctx.plan, approved := false, yolo := false,
         success := false, error := some rejectionError },
        by simp [auditEntries], rfl⟩,
      ⟨_, rfl, rfl, rfl⟩⟩

/-- C5: a returned result has `fallbackUsed = true` iff the first execution
attempt failed and a later one succeeded. -/
theorem executor_fallback_flag (ctx : ExecutorContext) (r : AskResult)
    (h : (execute ctx).1 = Except.ok r) :
    (r.fallbackUsed = true ↔
      ∃ msg rest, runOutcomes (execute ctx).2 = Except.error msg :: rest ∧
        ∃ v, (Except.ok v : Except Str Str) ∈ rest) := by
  unfold execute at h ⊢
  by_cases hg : (classifyMutating ctx.plan && !ctx.yolo) = true
  · rw [if_pos hg] at h ⊢
    by_cases ha : ctx.approveCommand ctx.plan.command ctx.plan.language = true
    · rw [if_pos ha] at h ⊢
      obtain ⟨tail, a, h2, -, -, -, hres⟩ :=
        executeAttempt_spec ctx (classifyMutating ctx.plan)
          (ctx.approveCommand ctx.plan.command ctx.plan.language)
          [.approval ctx.plan.command ctx.plan.language
            (ctx.approveCommand ctx.plan.command ctx.plan.language)]
      obtain ⟨-, -, hiff⟩ := hres r h
      rw [h2]
      simpa [runOutcomes] using hiff
    · rw [if_neg ha] at h ⊢
      simp only [Except.ok.injEq] at h
      subst h
      simp [runOutcomes]
  · rw [if_neg hg] at h ⊢
    obtain ⟨tail, a, h2, -, -, -, hres⟩ :=
      executeAttempt_spec ctx (classifyMutating ctx.plan)
        (!classifyMutating ctx.plan || (classifyMutating ctx.plan && ctx.yolo)) []
    obtain ⟨-, -, hiff⟩ := hres r h
    rw [h2]
    simpa [runOutcomes] using hiff

/-- C8 (amended): the `command` field of every returned result is the plan's
command. -/
theorem executor_result_command_is_plan_command (ctx : ExecutorContext)
    (r : AskResult) (h : (execute ctx).1 = Except.ok r) :
    r.command = ctx.plan.command := by
  unfold execute at h
  by_cases hg : (classifyMutating ctx.plan && !ctx.yolo) = true
  · rw [if_pos hg] at h
    by_cases ha : ctx.approveCommand ctx.plan.command ctx.plan.language = true
    · rw [if_pos ha] at h
      obtain ⟨tail, a, -, -, -, -, hres⟩ :=
        executeAttempt_spec ctx (classifyMutating ctx.plan)
          (ctx.approveCommand ctx.plan.command ctx.plan.language)
          [.approval ctx.plan.command ctx.plan.language
            (ctx.approveCommand ctx.plan.command ctx.plan.language)]
      exact (hres r h).2.1
    · rw [if_neg ha] at h
      simp only [Except.ok.injEq] at h
      subst h
      rfl
  · rw [if_neg hg] at h
    obtain ⟨tail, a, -, -, -, -, hres⟩ :=
      executeAttempt_spec ctx (classifyMutating ctx.plan)
        (!classifyMutating ctx.plan || (classifyMutating ctx.plan && ctx.yolo)) []
    exact (hres r h).2.1

theorem executeAttempt_setRequiresApproval (ctx : ExecutorContext) (b : Bool)
    (m ap : Bool) (ev0 : List ExecEvent) :
    executeAttempt (setRequiresApproval b ctx) m ap ev0 =
      ((executeAttempt ctx m ap ev0).1.map
        (fun r => { r with plan := { r.plan with requiresApproval := b } }),
       (executeAttempt ctx m ap ev0).2) := by
  have hrc : runCommand (setRequiresApproval b ctx) = runCommand ctx := by
    cases hL : ctx.plan.language <;>
      simp [runCommand, setRequiresApproval, hL, Except.map]
  cases hL : ctx.plan.language with
  | sql =>
    cases h1 : runCommand ctx with
    | ok res =>
      simp_all [executeAttempt, runEventOf, mkAudit, setRequiresApproval, hL, Except.map]
    | error msg =>
      cases h2 : ctx.runPython (generateFallbackPython ctx.plan.command msg) with
      | ok fr =>
        cases h3 : ctx.saveLearning (fallbackLearning ctx msg) with
        | ok u =>
          simp_all [executeAttempt, runEventOf, mkAudit, fallbackLearning,
            setRequiresApproval, hL, Except.map]
        | error fm =>
          simp_all [executeAttempt, runEventOf, mkAudit, fallbackLearning,
            setRequiresApproval, hL, Except.map]
      | error fm =>
        simp_all [executeAttempt, runEventOf, mkAudit, fallbackLearning,
          setRequiresApproval, hL, Except.map]
  | python =>
    cases h1 : runCommand ctx with
    | ok res =>
      simp_all [executeAttempt, runEventOf, mkAudit, setRequiresApproval, hL, Except.map]
    | error msg =>
      simp_all [executeAttempt, runEventOf, mkAudit, setRequiresApproval, hL, Except.map]

/-- C10: `Executor.execute` never reads `plan.requiresApproval`: the trace is
identical and the outcome agrees except for the embedded plan's
`requiresApproval` field. -/
theorem executor_ignores_requiresApproval (ctx : ExecutorContext) (b : Bool) :
    (execute (setRequiresApproval b ctx)).2 = (execute ctx).2 ∧
    (execute (setRequiresApproval b ctx)).1 =
      (execute ctx).1.map
        (fun r => { r with plan := { r.plan with requiresApproval := b } }) := by
  have h := executeAttempt_setRequiresApproval ctx b
  have hcl : classifyMutating (setRequiresApproval b ctx).plan =
      classifyMutating ctx.plan := by
    cases hL : ctx.plan.language <;>
      simp [classifyMutating, setRequiresApproval, hL]
  unfold execute
  rw [hcl]
  have hy : (setRequiresApproval b ctx).yolo = ctx.yolo := rfl
  have hac : (setRequiresApproval b ctx).approveCommand
      (setRequiresApproval b ctx).plan.command
      (setRequiresApproval b ctx).plan.language =
      ctx.approveCommand ctx.plan.command ctx.plan.language := rfl
  rw [hy, hac]
  by_cases hg : (classifyMutating ctx.plan && !ctx.yolo) = true
  · rw [if_pos hg, if_pos hg]
    by_cases ha : ctx.approveCommand ctx.plan.command ctx.plan.language = true
    · rw [if_pos ha, if_pos ha]
      rw [h]
      exact ⟨rfl, rfl⟩
    · rw [if_neg ha, if_neg ha]
      refine ⟨rfl, ?_⟩
      simp [setRequiresApproval, Except.map]
  · rw [if_neg hg, if_neg hg]
    rw [h]
    exact ⟨rfl, rfl⟩

/-- C1: on a fallback-language (python) plan failing with the undefined
`tables` context error, the executor performs no retry: a single python
execution, no learning, a failure audit, and the bare original error. -/
theorem executor_no_table_context_retry :
    (execute ctxC1).1 = Except.error nameErrorMsg ∧
    runOutcomes (execute ctxC1).2 = [Except.error nameErrorMsg] ∧
    learningEntries (execute ctxC1).2 = [] ∧
    auditEntries (execute ctxC1).2 =
      [{ timestamp := [], datasetId := "dataset_a".data,
         command := "print(tables[0])".data, language := .python,
         mutating := false, approved := true, yolo := false, success := false,
         error := some nameErrorMsg }] := by decide

/-- C2: a `saveLearning` failure after a successful Python fallback is caught
by the fallback catch handler: the call raises the combined error and audits
failure even though both the execution result was obtained. -/
theorem executor_learning_failure_fails_call :
    (execute ctxC2).1 =
      Except.error
        "SQL failed: Connection Error. Python fallback also failed: memory store write failed".data ∧
    runOutcomes (execute ctxC2).2 =
      [Except.error "Connection Error".data, Except.ok "fallback rows".data] ∧
    auditEntries (execute ctxC2).2 =
      [{ timestamp := [], datasetId := "dataset_a".data,
         command := "SELECT count(8) FROM missing_table".data,
         language := .sql, mutating := false, approved := true, yolo := false,
         success := false,
         error := some
           "SQL failed (Connection Error); fallback failed (memory store write failed)".data }] := by
  decide

/-- C8 counterexample: on the successful fallback attempt the executed
command is the generated python script, yet the returned `command` is the
plan's SQL. -/
theorem executor_result_command_counterexample :
    (execute ctxC8).1 = Except.ok resC8 ∧
    resC8.fallbackUsed = true ∧
    successfulRunCodes (execute ctxC8).2 =
      [generateFallbackPython "SELECT count(8) FROM missing_table".data
        "Connection Error".data] ∧
    resC8.command ≠
      generateFallbackPython "SELECT count(8) FROM missing_table".data
        "Connection Error".data := by decide

theorem executor_approval_gate_witness :
    classifyMutating ctxW4.plan = true ∧ ctxW4.yolo = false ∧
    (∃ ans rest,
      (execute ctxW4).2 =
        ExecEvent.approval ctxW4.plan.command ctxW4.plan.language ans :: rest ∧
      (ans = false →
        runOutcomes (execute ctxW4).2 = [] ∧
        learningEntries (execute ctxW4).2 = [] ∧
        (∃ a, auditEntries (execute ctxW4).2 = [a] ∧ a.success = false) ∧
        (∃ r, (execute ctxW4).1 = Except.ok r ∧ r.result = cancelMessage ∧
          r.fallbackUsed = false))) :=
  ⟨by decide, rfl, executor_approval_gate ctxW4 (by decide) rfl⟩

theorem executor_fallback_flag_witness :
    (execute ctxW5).1 = Except.ok resW5 ∧
    (resW5.fallbackUsed = true ↔
      ∃ msg rest, runOutcomes (execute ctxW5).2 = Except.error msg :: rest ∧
        ∃ v, (Except.ok v : Except Str Str) ∈ rest) :=
  ⟨by decide, executor_fallback_flag ctxW5 resW5 (by decide)⟩

theorem executor_result_command_amended_witness :
    (execute ctxC8).1 = Except.ok resC8 ∧ resC8.command = ctxC8.plan.command :=
  ⟨by decide, executor_result_command_is_plan_command ctxC8 resC8 (by decide)⟩

/-- C9: with an unconfigured completion client the planner never errors and
is decided by keyword sniffing: fallback-token prompts get the python plan,
all other prompts the generic bounded SELECT with no approval requirement. -/
theorem planner_heuristic_when_unconfigured (client : OpenRouterClientM)
    (ctx : PlannerContext) (h : client.isConfigured = false) :
    createPlan client ctx = .ok (heuristicPlan ctx.prompt) ∧
    (LIKELY_PYTHON.any (fun t => includesSub (ctx.prompt.map Char.toLower) t) = true →
      (heuristicPlan ctx.prompt).language = .python ∧
      (heuristicPlan ctx.prompt).requiresApproval = false) ∧
    (LIKELY_PYTHON.any (fun t => includesSub (ctx.prompt.map Char.toLower) t) = false →
      (heuristicPlan ctx.prompt).language = .sql ∧
      (heuristicPlan ctx.prompt).command = "SELECT * FROM main_table LIMIT 50;".data ∧
      (heuristicPlan ctx.prompt).requiresApproval = false) := by
  refine ⟨by simp [createPlan, h], ?_, ?_⟩ <;> intro hk <;>
    simp [heuristicPlan, hk]

theorem planner_heuristic_witness :
    clientW9.isConfigured = false ∧
    (createPlan clientW9 pctxW9 = .ok (heuristicPlan pctxW9.prompt) ∧
    (LIKELY_PYTHON.any (fun t => includesSub (pctxW9.prompt.map Char.toLower) t) = true →
      (heuristicPlan pctxW9.prompt).language = .python ∧
      (heuristicPlan pctxW9.prompt).requiresApproval = false) ∧
    (LIKELY_PYTHON.any (fun t => includesSub (pctxW9.prompt.map Char.toLower) t) = false →
      (heuristicPlan pctxW9.prompt).language = .sql ∧
      (heuristicPlan pctxW9.prompt).command = "SELECT * FROM main_table LIMIT 50;".data ∧
      (heuristicPlan pctxW9.prompt).requiresApproval = false)) :=
  ⟨rfl, planner_heuristic_when_unconfigured clientW9 pctxW9 rfl⟩

theorem charToNat_ofNat (n : Nat) (h : n.isValidChar) :
    (Char.ofNat n).toNat = n := by
  simp only [Char.ofNat, Char.toNat, Char.ofNatAux, h, dite_true]
  have : n < 2 ^ 32 := by
    rcases h with h | ⟨h1, h2⟩ <;> omega
  simp [UInt32.toNat, Nat.mod_eq_of_lt this]

theorem isWsCodePoint_false_of_alpha (n : Nat)
    (h : (65 ≤ n ∧ n ≤ 90) ∨ (97 ≤ n ∧ n ≤ 122)) : isWsCodePoint n = false := by
  simp only [isWsCodePoint, Bool.or_eq_false_iff, decide_eq_false_iff_not,
    Bool.and_eq_false_iff]
  omega

theorem isWsChar_toLower (c : Char) : isWsChar (Char.toLower c) = isWsChar c := by
  simp only [Char.toLower]
  by_cases h : c.toNat ≥ 65 ∧ c.toNat ≤ 90
  · rw [if_pos h]
    have hv : (Char.ofNat (c.toNat + 32)).toNat = c.toNat + 32 :=
      charToNat_ofNat _ (Or.inl (by omega))
    rw [isWsChar, isWsChar, hv]
    rw [isWsCodePoint_false_of_alpha _ (Or.inr (by omega)),
      isWsCodePoint_false_of_alpha _ (Or.inl (by omega))]
  · rw [if_neg h]

theorem WsStr_map_toLower {w : Str} (h : WsStr w) : WsStr (w.map Char.toLower) := by
  intro c hc
  obtain ⟨d, hd, rfl⟩ := List.mem_map.mp hc
  rw [isWsChar_toLower]
  exact h d hd

theorem TokenStr_map_toLower {t : Str} (h : TokenStr t) :
    TokenStr (t.map Char.toLower) := by
  refine ⟨by simpa using h.1, ?_⟩
  intro c hc
  obtain ⟨d, hd, rfl⟩ := List.mem_map.mp hc
  rw [isWsChar_toLower]
  exact h.2 d hd

theorem PartsOk_lowerParts (parts : List (Str × Str)) (h : PartsOk parts) :
    PartsOk (lowerParts parts) := by
  induction parts with
  | nil => trivial
  | cons hd tl ih =>
    obtain ⟨t, w⟩ := hd
    cases tl with
    | nil =>
      simp only [PartsOk, lowerParts, List.map] at h ⊢
      exact ⟨TokenStr_map_toLower h.1, WsStr_map_toLower h.2⟩
    | cons hd2 tl2 =>
      simp only [PartsOk, lowerParts, List.map] at h ⊢
      obtain ⟨ht, hw, hne, hrest⟩ := h
      refine ⟨TokenStr_map_toLower ht, WsStr_map_toLower hw, by simpa using hne, ?_⟩
      simpa [lowerParts] using ih hrest

theorem map_toLower_sepJoin (parts : List (Str × Str)) :
    (sepJoin parts).map Char.toLower = sepJoin (lowerParts parts) := by
  induction parts with
  | nil => rfl
  | cons hd tl ih =>
    obtain ⟨t, w⟩ := hd
    simp [sepJoin, lowerParts, ih]

theorem collapseWsAux_token (t : Str) (hne : t ≠ [])
    (hws : ∀ c ∈ t, isWsChar c = false) :
    ∀ b x, collapseWsAux b (t ++ x) = t ++ collapseWsAux false x := by
  induction t with
  | nil => simp at hne
  | cons c cs ih =>
    intro b x
    have hc : isWsChar c = false := hws c (by simp)
    by_cases h : cs = []
    · subst h
      simp [collapseWsAux, hc]
    · simp only [List.cons_append, collapseWsAux, hc, Bool.false_eq_true,
        if_false, List.append_eq]
      rw [ih h (fun d hd => hws d (by simp [hd])) false x]

theorem collapseWsAux_ws_true (w : Str) (hws : ∀ c ∈ w, isWsChar c = true) :
    ∀ x, collapseWsAux true (w ++ x) = collapseWsAux true x := by
  induction w with
  | nil => intro x; rfl
  | cons c cs ih =>
    intro x
    simp only [List.cons_append, collapseWsAux, hws c (by simp), if_true,
      List.append_eq]
    exact ih (fun d hd => hws d (by simp [hd])) x

theorem collapseWsAux_ws_false (w : Str) (hne : w ≠ [])
    (hws : ∀ c ∈ w, isWsChar c = true) :
    ∀ x, collapseWsAux false (w ++ x) = ' ' :: collapseWsAux true x := by
  cases w with
  | nil => simp at hne
  | cons c cs =>
    intro x
    simp only [List.cons_append, collapseWsAux, hws c (by simp), if_true,
      Bool.false_eq_true, if_false, List.append_eq]
    rw [collapseWsAux_ws_true cs (fun d hd => hws d (by simp [hd])) x]

theorem collapseWsAux_true_eq_false (x : Str)
    (h : x = [] ∨ ∃ c t, x = c :: t ∧ isWsChar c = false) :
    collapseWsAux true x = collapseWsAux false x := by
  rcases h with rfl | ⟨c, t, rfl, hc⟩
  · rfl
  · simp [collapseWsAux, hc]

theorem sepJoin_head_not_ws (parts : List (Str × Str)) (hok : PartsOk parts) :
    sepJoin parts = [] ∨
      ∃ c t, sepJoin parts = c :: t ∧ isWsChar c = false := by
  cases parts with
  | nil => exact Or.inl rfl
  | cons hd tl =>
    obtain ⟨t, w⟩ := hd
    have ht : TokenStr t := by
      cases tl <;> (simp only [PartsOk] at hok; exact hok.1)
    obtain ⟨c, cs, rfl⟩ : ∃ c cs, t = c :: cs := by
      cases t with
      | nil => exact absurd rfl ht.1
      | cons c cs => exact ⟨c, cs, rfl⟩
    exact Or.inr ⟨c, cs ++ w ++ sepJoin tl, by simp [sepJoin], ht.2 c (by simp)⟩

theorem collapseWsAux_of_ws (w : Str) (hws : ∀ c ∈ w, isWsChar c = true) :
    collapseWsAux false w = if w.isEmpty then [] else [' '] := by
  cases w with
  | nil => rfl
  | cons c cs =>
    have := collapseWsAux_ws_false (c :: cs) (by simp) hws []
    simpa using this

theorem sepJoin_cons (t w : Str) (rest : List (Str × Str)) :
    sepJoin ((t, w) :: rest) = t ++ w ++ sepJoin rest := rfl

theorem spineJoin_single (t w : Str) :
    spineJoin [(t, w)] = t ++ (if w.isEmpty then [] else [' ']) := rfl

theorem spineJoin_cons₂ (t w : Str) (p : Str × Str) (rest : List (Str × Str)) :
    spineJoin ((t, w) :: p :: rest) = t ++ ' ' :: spineJoin (p :: rest) := rfl

theorem joinSp_cons_ne (t : Str) (rest : List Str) (h : rest ≠ []) :
    joinSp (t :: rest) = t ++ ' ' :: joinSp rest := by
  cases rest with
  | nil => simp at h
  | cons a l => rfl

theorem collapse_sepJoin (parts : List (Str × Str)) (hok : PartsOk parts) :
    collapseWsAux false (sepJoin parts) = spineJoin parts := by
  induction parts with
  | nil => rfl
  | cons hd tl ih =>
    obtain ⟨t, w⟩ := hd
    cases tl with
    | nil =>
      simp only [PartsOk] at hok
      obtain ⟨ht, hw⟩ := hok
      rw [sepJoin_cons, spineJoin_single]
      rw [show sepJoin [] = [] from rfl, List.append_nil]
      rw [collapseWsAux_token t ht.1 ht.2 false w]
      rw [collapseWsAux_of_ws w hw]
    | cons hd2 tl2 =>
      simp only [PartsOk] at hok
      obtain ⟨ht, hw, hwne, hrest⟩ := hok
      rw [sepJoin_cons, spineJoin_cons₂, List.append_assoc]
      rw [collapseWsAux_token t ht.1 ht.2]
      rw [collapseWsAux_ws_false w hwne hw]
      rw [collapseWsAux_true_eq_false _ (sepJoin_head_not_ws _ hrest)]
      rw [ih hrest]
theorem parts_tokens_ok (parts : List (Str × Str)) (hok : PartsOk parts) :
    ∀ t ∈ parts.map Prod.fst, TokenStr t := by
  induction parts with
  | nil => simp
  | cons hd tl ih =>
    obtain ⟨t, w⟩ := hd
    intro u hu
    simp only [List.map, List.mem_cons] at hu
    cases tl with
    | nil =>
      simp only [PartsOk] at hok
      rcases hu with rfl | hu
      · exact hok.1
      · simp at hu
    | cons hd2 tl2 =>
      simp only [PartsOk] at hok
      rcases hu with rfl | hu
      · exact hok.1
      · exact ih hok.2.2.2 u hu

theorem spineJoin_cases (parts : List (Str × Str)) (hok : PartsOk parts) :
    spineJoin parts = joinSp (parts.map Prod.fst) ∨
    spineJoin parts = joinSp (parts.map Prod.fst) ++ [' '] := by
  induction parts with
  | nil => exact Or.inl rfl
  | cons hd tl ih =>
    obtain ⟨t, w⟩ := hd
    cases tl with
    | nil =>
      by_cases hw : w.isEmpty
      · left
        simp [spineJoin_single, joinSp, hw]
      · right
        simp [spineJoin_single, joinSp, hw]
    | cons hd2 tl2 =>
      simp only [PartsOk] at hok
      have hmapne : (hd2.1 :: List.map Prod.fst tl2) ≠ [] := by simp
      rcases ih hok.2.2.2 with h | h
      · left
        rw [spineJoin_cons₂, h]
        simp only [List.map_cons]
        rw [joinSp_cons_ne _ _ hmapne]
      · right
        rw [spineJoin_cons₂, h]
        simp only [List.map_cons]
        rw [joinSp_cons_ne _ _ hmapne]
        simp

theorem token_reverse (t : Str) (ht : TokenStr t) :
    ∃ c t', t.reverse = c :: t' ∧ isWsChar c = false := by
  obtain ⟨c, t', heq⟩ : ∃ c t', t.reverse = c :: t' := by
    cases hr : t.reverse with
    | nil => exact absurd (by simpa using hr) ht.1
    | cons c t' => exact ⟨c, t', rfl⟩
  exact ⟨c, t', heq, ht.2 c (by rw [← List.mem_reverse, heq]; simp)⟩

theorem joinSp_cons_head (t : Str) (rest : List Str) (ht : TokenStr t) :
    ∃ c r, joinSp (t :: rest) = c :: r ∧ isWsChar c = false := by
  obtain ⟨c, cs, rfl⟩ : ∃ c cs, t = c :: cs := by
    cases t with
    | nil => exact absurd rfl ht.1
    | cons c cs => exact ⟨c, cs, rfl⟩
  have hc : isWsChar c = false := ht.2 c (by simp)
  cases rest with
  | nil => exact ⟨c, cs, rfl, hc⟩
  | cons u us =>
    exact ⟨c, cs ++ ' ' :: joinSp (u :: us),
      by rw [joinSp_cons_ne _ _ (by simp : u :: us ≠ [])]; rfl, hc⟩

theorem joinSp_reverse_head (toks : List Str) (hne : toks ≠ [])
    (htoks : ∀ t ∈ toks, TokenStr t) :
    ∃ c t', (joinSp toks).reverse = c :: t' ∧ isWsChar c = false := by
  induction toks with
  | nil => simp at hne
  | cons t rest ih =>
    cases rest with
    | nil => simpa [joinSp] using token_reverse t (htoks t (by simp))
    | cons u us =>
      obtain ⟨c, t', heq, hc⟩ := ih (by simp) (fun x hx => htoks x (by simp [hx]))
      refine ⟨c, t' ++ [' '] ++ t.reverse, ?_, hc⟩
      rw [joinSp_cons_ne t (u :: us) (by simp)]
      rw [List.reverse_append, List.reverse_cons, heq]
      simp

theorem dropWhile_ws_cons_not (c : Char) (r : Str) (hc : isWsChar c = false) :
    (c :: r).dropWhile isWsChar = c :: r := by
  simp [List.dropWhile_cons, hc]

theorem trimWs_joinSp (toks : List Str) (htoks : ∀ t ∈ toks, TokenStr t) :
    trimWs (joinSp toks) = joinSp toks := by
  cases toks with
  | nil => rfl
  | cons t rest =>
    unfold trimWs
    obtain ⟨c, r, heq, hc⟩ := joinSp_cons_head t rest (htoks t (by simp))
    obtain ⟨c', t', heq', hc'⟩ := joinSp_reverse_head (t :: rest) (by simp) htoks
    rw [heq, dropWhile_ws_cons_not c r hc, ← heq, heq',
      dropWhile_ws_cons_not c' t' hc', ← heq', List.reverse_reverse]

theorem trimWs_joinSp_space (toks : List Str) (htoks : ∀ t ∈ toks, TokenStr t) :
    trimWs (joinSp toks ++ [' ']) = joinSp toks := by
  cases toks with
  | nil => rfl
  | cons t rest =>
    unfold trimWs
    obtain ⟨c, r, heq, hc⟩ := joinSp_cons_head t rest (htoks t (by simp))
    obtain ⟨c', t', heq', hc'⟩ := joinSp_reverse_head (t :: rest) (by simp) htoks
    rw [heq, List.cons_append, dropWhile_ws_cons_not c (r ++ [' ']) hc,
      ← List.cons_append, ← heq, List.reverse_append, heq']
    rw [show ([' '] : Str).reverse = [' '] from rfl]
    rw [show (([' '] ++ c' :: t' : Str)).dropWhile isWsChar =
      (c' :: t' : Str).dropWhile isWsChar from by
        simp [List.dropWhile_cons, show isWsChar ' ' = true from rfl]]
    rw [dropWhile_ws_cons_not c' t' hc', ← heq', List.reverse_reverse]

theorem lowerParts_tokens_ok (parts : List (Str × Str)) (hok : PartsOk parts) :
    ∀ t ∈ (lowerParts parts).map Prod.fst, TokenStr t :=
  parts_tokens_ok (lowerParts parts) (PartsOk_lowerParts parts hok)

/-- The normalization performed by `isMutatingSql` maps an assembled command
to its lower-cased tokens joined by single spaces. -/
theorem normalized_assemble (w0 : Str) (parts : List (Str × Str))
    (hw0 : WsStr w0) (hok : PartsOk parts) :
    trimWs (collapseWsAux false ((w0 ++ sepJoin parts).map Char.toLower)) =
      joinSp ((lowerParts parts).map Prod.fst) := by
  rw [List.map_append, map_toLower_sepJoin]
  have hw0l : WsStr (w0.map Char.toLower) := WsStr_map_toLower hw0
  have hokl := PartsOk_lowerParts parts hok
  have hfinish :
      trimWs (spineJoin (lowerParts parts)) =
        joinSp ((lowerParts parts).map Prod.fst) := by
    rcases spineJoin_cases _ hokl with h | h <;> rw [h]
    · exact trimWs_joinSp _ (lowerParts_tokens_ok parts hok)
    · exact trimWs_joinSp_space _ (lowerParts_tokens_ok parts hok)
  by_cases hw0e : w0.map Char.toLower = []
  · rw [hw0e, List.nil_append, collapse_sepJoin _ hokl]
    exact hfinish
  · rw [collapseWsAux_ws_false _ hw0e (fun c hc => hw0l c hc)]
    rw [collapseWsAux_true_eq_false _ (sepJoin_head_not_ws _ hokl)]
    rw [collapse_sepJoin _ hokl]
    rw [show trimWs (' ' :: spineJoin (lowerParts parts)) =
        trimWs (spineJoin (lowerParts parts)) from by
      unfold trimWs
      rw [show (' ' :: spineJoin (lowerParts parts)).dropWhile isWsChar =
        (spineJoin (lowerParts parts)).dropWhile isWsChar from by
          simp [List.dropWhile_cons, show isWsChar ' ' = true from rfl]]]
    exact hfinish

theorem isPrefixOf_append_self (l t : Str) : l.isPrefixOf (l ++ t) = true := by
  rw [ List.isPrefixOf_iff_prefix]
  exact List.prefix_append l t

theorem includesSub_of_infix (s sub : Str) (h : sub <:+: s) :
    includesSub s sub = true := by
  obtain ⟨pre, suf, hs⟩ := h
  subst hs
  induction pre with
  | nil =>
    rw [includesSub.eq_def]
    simp [isPrefixOf_append_self]
  | cons c cs ih =>
    rw [includesSub.eq_def]
    simp only [List.cons_append]
    simp
    exact Or.inr (by simpa [List.append_assoc] using ih)

theorem joinSp_append_cons (pre : List Str) (kw : Str) (post : List Str)
    (hpre : pre ≠ []) :
    joinSp (pre ++ kw :: post) = joinSp pre ++ ' ' :: joinSp (kw :: post) := by
  induction pre with
  | nil => simp at hpre
  | cons p ps ih =>
    cases ps with
    | nil =>
      rw [show ([p] : List Str) ++ kw :: post = p :: kw :: post from rfl]
      rw [joinSp_cons_ne p (kw :: post) (by simp)]
      rfl
    | cons q qs =>
      rw [List.cons_append, joinSp_cons_ne p ((q :: qs) ++ kw :: post) (by simp),
        ih (by simp), joinSp_cons_ne p (q :: qs) (by simp)]
      simp

/-- C6 (amended): any command in which a write-intent keyword occurs (in any
case, with any whitespace) as a standalone token that is not only the final
token — i.e. as the first token, or followed by at least one further token —
is classified mutating; `select 1` is not. -/
theorem isMutatingSql_token_spec :
    (∀ (kw kwRaw w0 w : Str) (parts pre post : List (Str × Str)),
      kw ∈ SQL_MUTATION_KEYWORDS → WsStr w0 → PartsOk parts →
      parts = pre ++ (kwRaw, w) :: post →
      kwRaw.map Char.toLower = kw → (pre = [] ∨ post ≠ []) →
      isMutatingSql (w0 ++ sepJoin parts) = true) ∧
    isMutatingSql "select 1".data = false := by
  constructor
  · intro kw kwRaw w0 w parts pre post hkw hw0 hok hsplit hcase hpos
    subst hsplit
    simp only [isMutatingSql]
    rw [normalized_assemble w0 _ hw0 hok]
    rw [List.any_eq_true]
    refine ⟨kw, hkw, ?_⟩
    have htoks : (lowerParts (pre ++ (kwRaw, w) :: post)).map Prod.fst =
        (lowerParts pre).map Prod.fst ++ kw :: (lowerParts post).map Prod.fst := by
      simp [lowerParts, hcase]
    rw [htoks]
    by_cases hpre : pre = []
    · subst hpre
      simp only [lowerParts, List.map_nil, List.nil_append]
      cases hpt : (List.map
          (fun p => (p.1.map Char.toLower, p.2.map Char.toLower)) post).map
          Prod.fst with
      | nil =>
        rw [show joinSp [kw] = kw ++ [] from by simp [joinSp]]
        rw [isPrefixOf_append_self]
        simp
      | cons x xs =>
        rw [joinSp_cons_ne kw (x :: xs) (by simp)]
        rw [show kw ++ ' ' :: joinSp (x :: xs) =
          kw ++ (' ' :: joinSp (x :: xs)) from rfl]
        rw [isPrefixOf_append_self]
        simp
    · have hpost : post ≠ [] := hpos.resolve_left hpre
      have hprene : (lowerParts pre).map Prod.fst ≠ [] := by
        simp [lowerParts, hpre]
      have hpostne : (lowerParts post).map Prod.fst ≠ [] := by
        simp [lowerParts, hpost]
      rw [joinSp_append_cons _ kw _ hprene]
      rw [joinSp_cons_ne kw _ hpostne]
      rw [Bool.or_eq_true]
      right
      apply includesSub_of_infix
      refine ⟨joinSp ((lowerParts pre).map Prod.fst),
        joinSp ((lowerParts post).map Prod.fst), ?_⟩
      simp
  · decide

/-- C6 counterexample: `copy` occurs as a standalone (final) token of
`select * from copy`, yet the classifier does not flag the command. -/
theorem isMutatingSql_final_token_counterexample :
    "copy".data ∈ wsTokens (("select * from copy".data).map Char.toLower) ∧
    isMutatingSql "select * from copy".data = false := by decide

theorem isMutatingSql_token_spec_witness :
    isMutatingSql ([] ++ sepJoin partsW6) = true ∧
    isMutatingSql "select 1".data = false :=
  ⟨isMutatingSql_token_spec.1 "drop".data "Drop".data [] [' '] partsW6
     [("explain".data, [' ', ' '])] [("table".data, [' ']), ("t".data, [])]
     (by decide) (by decide) (by decide) (by decide) (by decide)
     (Or.inr (by decide)),
   isMutatingSql_token_spec.2⟩

theorem listIsPrefixOf_append {α : Type} [BEq α] [LawfulBEq α]
    (l t : List α) : l.isPrefixOf (l ++ t) = true := by
  rw [ List.isPrefixOf_iff_prefix]
  exact List.prefix_append l t

theorem daily_ne_globalDaily (cwd : FsPath) (d t1 t2 : Str) :
    dailyMemoryPath cwd d t1 ≠ globalDailyMemoryPath cwd t2 := by
  intro h
  simp only [dailyMemoryPath, globalDailyMemoryPath, getDatasetRoot,
    getProjectPaths, List.append_assoc] at h
  have h2 := List.append_cancel_left h
  simp only [List.cons_append, List.nil_append, List.cons.injEq] at h2
  exact absurd h2.2.1 (by decide)

theorem readTextFs_appendTextFs_self (fs : Fs) (p : FsPath) (content : Str) :
    readTextFs (appendTextFs fs p content) p =
      some ((readTextFs fs p).getD [] ++ content) := by
  induction fs with
  | nil => simp [appendTextFs, readTextFs]
  | cons e rest ih =>
    obtain ⟨q, t⟩ := e
    by_cases h : q = p <;> simp [appendTextFs, readTextFs, h, ih]

theorem readTextFs_appendTextFs_ne (fs : Fs) (p r : FsPath) (content : Str)
    (h : r ≠ p) :
    readTextFs (appendTextFs fs p content) r = readTextFs fs r := by
  induction fs with
  | nil =>
    simp only [appendTextFs, readTextFs]
    rw [if_neg (fun he => h he.symm)]
  | cons e rest ih =>
    obtain ⟨q, t⟩ := e
    by_cases hq : q = p
    · subst hq
      simp only [appendTextFs, if_pos rfl, readTextFs]
      rw [if_neg (fun he : q = r => h he.symm),
        if_neg (fun he : q = r => h he.symm)]
    · by_cases hr : q = r
      · subst hr
        simp only [appendTextFs, if_neg hq]
        simp [readTextFs]
      · simp [appendTextFs, readTextFs, hq, hr, ih]

theorem mem_appendTextFs_self (fs : Fs) (p : FsPath) (c : Str) :
    p ∈ (appendTextFs fs p c).map Prod.fst := by
  induction fs with
  | nil => simp [appendTextFs]
  | cons e rest ih =>
    obtain ⟨q, t⟩ := e
    by_cases h : q = p <;> simp [appendTextFs, h, ih]

theorem mem_appendTextFs_mono (fs : Fs) (p : FsPath) (c : Str) (r : FsPath)
    (h : r ∈ fs.map Prod.fst) : r ∈ (appendTextFs fs p c).map Prod.fst := by
  induction fs with
  | nil => simp at h
  | cons e rest ih =>
    obtain ⟨q, t⟩ := e
    simp only [List.map_cons, List.mem_cons] at h
    by_cases hq : q = p
    · subst hq
      rcases h with rfl | h <;> simp [appendTextFs, *]
    · rcases h with rfl | h <;> simp [appendTextFs, hq, ih, *]

theorem mem_dedupFirstAux (l : List FsPath) :
    ∀ seen (p : FsPath), p ∈ l → p ∉ seen → p ∈ dedupFirstAux seen l := by
  induction l with
  | nil => intro seen p h; simp at h
  | cons q rest ih =>
    intro seen p h hns
    simp only [List.mem_cons] at h
    by_cases hq : q ∈ seen
    · rcases h with rfl | h
      · exact absurd hq hns
      · simpa [dedupFirstAux, hq] using ih seen p h hns
    · rcases h with rfl | h
      · simp [dedupFirstAux, hq]
      · by_cases hpq : p = q
        · subst hpq
          simp [dedupFirstAux, hq]
        · simp only [dedupFirstAux, hq, if_false]
          exact List.mem_cons_of_mem _ (ih (q :: seen) p h (by simp [hpq, hns]))

theorem dailyMemoryPath_decomp (cwd : FsPath) (d t : Str) :
    dailyMemoryPath cwd d t =
      (getDatasetRoot cwd d ++ ["memory".data]) ++ [t ++ ".md".data] := by
  simp [dailyMemoryPath]

theorem daily_mem_memoryFiles (cwd : FsPath) (fs : Fs) (d t : Str)
    (hmem : dailyMemoryPath cwd d t ∈ fs.map Prod.fst)
    (hread : (readTextFs fs (dailyMemoryPath cwd d t)).isSome = true) :
    dailyMemoryPath cwd d t ∈ memoryFiles cwd fs (some d) := by
  unfold memoryFiles
  apply List.mem_filter.mpr
  refine ⟨?_, hread⟩
  apply mem_dedupFirstAux _ [] _ ?_ (by simp)
  apply List.mem_append.mpr
  right
  unfold listFilesRecursivelyFs
  apply List.mem_filter.mpr
  refine ⟨hmem, ?_⟩
  rw [dailyMemoryPath_decomp]
  simp only [Bool.and_eq_true]
  constructor
  · exact listIsPrefixOf_append _ _
  · simp

theorem intercalate_cons₂ (sep a b : Str) (l : List Str) :
    List.intercalate sep (a :: b :: l) =
      a ++ sep ++ List.intercalate sep (b :: l) := by
  simp [List.intercalate, List.intersperse]

theorem infix_intercalate_of_mem (sep : Str) (l : List Str) (a : Str)
    (h : a ∈ l) : a <:+: List.intercalate sep l := by
  induction l with
  | nil => simp at h
  | cons x xs ih =>
    rcases List.mem_cons.mp h with rfl | h
    · cases xs with
      | nil => simp [List.intercalate, List.intersperse]
      | cons y ys =>
        rw [intercalate_cons₂]
        exact ⟨[], sep ++ List.intercalate sep (y :: ys), by simp⟩
    · cases xs with
      | nil => simp at h
      | cons y ys =>
        rw [intercalate_cons₂]
        obtain ⟨s, t, hst⟩ := ih h
        exact ⟨x ++ sep ++ s, t, by rw [← hst]; simp⟩

theorem fingerprint_infix_learningBlock (input : LearningInput)
    (fingerprint createdAt : Str) :
    fingerprint <:+: learningBlock input fingerprint createdAt := by
  have hmem : ("- fingerprint: ".data ++ fingerprint) ∈
      ["## Learning ".data ++ fingerprint.take 12,
       "- dataset_id: ".data ++ input.datasetId,
       "- symptom: ".data ++ input.symptom,
       "- root_cause: ".data ++ input.rootCause,
       "- fix: ".data ++ input.fix,
       "- language: ".data ++ langText input.language,
       "- command: ".data ++ input.command.map (fun c => if c = '\n' then ' ' else c),
       "- confidence: 0.75".data,
       "- tags: auto-learning,execution-retry".data,
       "- created_at: ".data ++ createdAt,
       "- fingerprint: ".data ++ fingerprint,
       []] := by
    simp
  have h1 : fingerprint <:+: ("- fingerprint: ".data ++ fingerprint) :=
    ⟨"- fingerprint: ".data, [], by simp⟩
  exact h1.trans (infix_intercalate_of_mem _ _ _ hmem)

theorem infix_readAllMemoryText (cwd : FsPath) (fs : Fs) (d : Str)
    (p : FsPath) (text sub : Str)
    (hp : p ∈ memoryFiles cwd fs (some d))
    (hr : readTextFs fs p = some text)
    (hsub : sub <:+: text) :
    sub <:+: readAllMemoryText cwd fs d := by
  unfold readAllMemoryText
  have hmem : text ∈ (memoryFiles cwd fs (some d)).map
      (fun p => (readTextFs fs p).getD []) := by
    apply List.mem_map.mpr
    exact ⟨p, hp, by rw [hr]; rfl⟩
  exact hsub.trans (infix_intercalate_of_mem _ _ _ hmem)

theorem saveLearning_noop (cwd : FsPath) (sha256 : Str → Str) (t c : Str)
    (fs : Fs) (input : LearningInput)
    (h : includesSub (readAllMemoryText cwd fs input.datasetId)
      (sha256 (fingerprintKey input)) = true) :
    saveLearning cwd sha256 t c fs input = fs := by
  unfold saveLearning
  rw [if_pos h]

/-- C7: saving the same (dataset, symptom, fix) twice persists exactly one
block: the first call appends one formatted block (containing the
fingerprint) to the dataset daily file, and the second call is a silent
no-op on the whole file system state. -/
theorem saveLearning_idempotent (cwd : FsPath) (sha256 : Str → Str)
    (fs0 : Fs) (inp inp2 : LearningInput) (t1 t2 c1 c2 : Str)
    (hd : inp2.datasetId = inp.datasetId) (hs : inp2.symptom = inp.symptom)
    (hf : inp2.fix = inp.fix)
    (hfresh : includesSub (readAllMemoryText cwd fs0 inp.datasetId)
      (sha256 (fingerprintKey inp)) = false) :
    saveLearning cwd sha256 t2 c2 (saveLearning cwd sha256 t1 c1 fs0 inp) inp2 =
      saveLearning cwd sha256 t1 c1 fs0 inp ∧
    readTextFs (saveLearning cwd sha256 t1 c1 fs0 inp)
        (dailyMemoryPath cwd inp.datasetId t1) =
      some ((readTextFs fs0 (dailyMemoryPath cwd inp.datasetId t1)).getD [] ++
        learningBlock inp (sha256 (fingerprintKey inp)) c1) := by
  have hkey : fingerprintKey inp2 = fingerprintKey inp := by
    simp [fingerprintKey, hd, hs, hf]
  have h1 : saveLearning cwd sha256 t1 c1 fs0 inp =
      appendTextFs
        (appendTextFs fs0 (dailyMemoryPath cwd inp.datasetId t1)
          (learningBlock inp (sha256 (fingerprintKey inp)) c1))
        (globalDailyMemoryPath cwd t1)
        (learningBlock inp (sha256 (fingerprintKey inp)) c1) := by
    unfold saveLearning
    rw [if_neg (by rw [hfresh]; exact Bool.false_ne_true)]
  have hne := daily_ne_globalDaily cwd inp.datasetId t1 t1
  have hread1 : readTextFs (saveLearning cwd sha256 t1 c1 fs0 inp)
      (dailyMemoryPath cwd inp.datasetId t1) =
      some ((readTextFs fs0 (dailyMemoryPath cwd inp.datasetId t1)).getD [] ++
        learningBlock inp (sha256 (fingerprintKey inp)) c1) := by
    rw [h1, readTextFs_appendTextFs_ne _ _ _ _ hne,
      readTextFs_appendTextFs_self]
  refine ⟨?_, hread1⟩
  have hmem : dailyMemoryPath cwd inp.datasetId t1 ∈
      (saveLearning cwd sha256 t1 c1 fs0 inp).map Prod.fst := by
    rw [h1]
    exact mem_appendTextFs_mono _ _ _ _ (mem_appendTextFs_self _ _ _)
  have hfiles : dailyMemoryPath cwd inp.datasetId t1 ∈
      memoryFiles cwd (saveLearning cwd sha256 t1 c1 fs0 inp)
        (some inp.datasetId) :=
    daily_mem_memoryFiles _ _ _ _ hmem (by rw [hread1]; rfl)
  have hinf : sha256 (fingerprintKey inp) <:+:
      readAllMemoryText cwd (saveLearning cwd sha256 t1 c1 fs0 inp)
        inp.datasetId := by
    apply infix_readAllMemoryText _ _ _ _ _ _ hfiles hread1
    obtain ⟨s, t, hst⟩ :=
      fingerprint_infix_learningBlock inp (sha256 (fingerprintKey inp)) c1
    refine ⟨(readTextFs fs0 (dailyMemoryPath cwd inp.datasetId t1)).getD [] ++ s,
      t, ?_⟩
    conv_rhs => rw [← hst]
    simp [List.append_assoc]
  apply saveLearning_noop
  rw [hd, hkey]
  exact includesSub_of_infix _ _ hinf

theorem saveLearning_idempotent_witness :
    saveLearning [] shaW7 "2026-10-12".data "c2".data
        (saveLearning [] shaW7 "2026-10-11".data "c1".data [] inpW7) inpW7 =
      saveLearning [] shaW7 "2026-10-11".data "c1".data [] inpW7 ∧
    readTextFs (saveLearning [] shaW7 "2026-10-11".data "c1".data [] inpW7)
        (dailyMemoryPath [] inpW7.datasetId "2026-10-11".data) =
      some ((readTextFs ([] : Fs)
          (dailyMemoryPath [] inpW7.datasetId "2026-10-11".data)).getD [] ++
        learningBlock inpW7 (shaW7 (fingerprintKey inpW7)) "c1".data) :=
  saveLearning_idempotent [] shaW7 [] inpW7 inpW7 "2026-10-11".data
    "2026-10-12".data "c1".data "c2".data rfl rfl rfl (by decide)
